import Mathlib

/-!
Shallow embedding of the invoice-parser transformation core (`app3.py`):
the text extractor, the table extractor, the table grid builder and
serializer, and the per-file document processor boundary.

External services (Azure Document Intelligence, the LLM) are modelled as
parameters of type `Except String _`: an `Except.error e` models a raised
exception whose `str(e)` is `e`.  Python lists become `List`, Python dicts
(insertion-ordered, unique keys) become association lists with
insertion-order update semantics, and Python list indexing (including
negative-index wraparound and `IndexError`) is modelled explicitly.
-/

namespace InvoiceParser

/-- A span of an analysis-result paragraph; only the offset is used. -/
structure Span where
  offset : Nat
deriving Repr, DecidableEq

/-- A bounding region, associating content with a page number. -/
structure BoundingRegion where
  page_number : Nat
deriving Repr, DecidableEq

/-- A paragraph of the analysis result. -/
structure Paragraph where
  content : String
  role : Option String
  bounding_regions : List BoundingRegion
  spans : List Span
deriving Repr, DecidableEq

/-- A line of a page of the analysis result. -/
structure Line where
  content : String
deriving Repr, DecidableEq

/-- A page of the analysis result. -/
structure Page where
  page_number : Nat
  lines : List Line
deriving Repr, DecidableEq

/-- A table cell of the analysis result.  Row/column indices are Python
ints, so they are modelled as `Int` (negative values index from the end
when used as Python list indices). -/
structure Cell where
  row_index : Int
  column_index : Int
  content : String
  kind : Option String
  column_span : Option Nat
deriving Repr, DecidableEq

/-- A table of the analysis result. -/
structure Table where
  row_count : Nat
  column_count : Nat
  bounding_regions : List BoundingRegion
  cells : List Cell
deriving Repr, DecidableEq

/-- The analysis result returned by the document-analysis service.
A `None` collection in Python behaves like the empty list here. -/
structure AnalysisResult where
  paragraphs : List Paragraph
  pages : List Page
  tables : List Table
deriving Repr, DecidableEq

/-- One entry of a page's text sequence: the dict
`{"type": "paragraph"/"line", "content": ..., "role": ...}`. -/
inductive Fragment where
  | paragraph (content : String) (role : Option String)
  | line (content : String)
deriving Repr, DecidableEq

/-- The content field of a fragment (`item["content"]`). -/
def Fragment.content : Fragment → String
  | .paragraph c _ => c
  | .line c => c

/-- `text_content`: a Python dict from page number to fragment list,
modelled as an insertion-ordered association list with unique keys. -/
abbrev PageText := List (Nat × List Fragment)

/-- Python dict lookup (first, and only, matching key). -/
def dictGet? (d : List (Nat × β)) (k : Nat) : Option β :=
  match d with
  | [] => none
  | (k', v) :: d' => if k' = k then some v else dictGet? d' k

/-- Python dict assignment: update the value in place if the key exists,
otherwise append the new key at the end (insertion order). -/
def dictSet (d : List (Nat × β)) (k : Nat) (v : β) : List (Nat × β) :=
  match d with
  | [] => [(k, v)]
  | (k', v') :: d' => if k' = k then (k, v) :: d' else (k', v') :: dictSet d' k v

/-- The sort key used for paragraphs:
`p.spans[0].offset if p.spans else 0`. -/
def paragraphKey (p : Paragraph) : Nat :=
  match p.spans with
  | [] => 0
  | s :: _ => s.offset

instance : DecidableRel (fun a b : Paragraph => paragraphKey a ≤ paragraphKey b) :=
  fun a b => Nat.decLe _ _

instance : IsTotal Paragraph (fun a b : Paragraph => paragraphKey a ≤ paragraphKey b) :=
  ⟨fun a b => Nat.le_total _ _⟩

instance : IsTrans Paragraph (fun a b : Paragraph => paragraphKey a ≤ paragraphKey b) :=
  ⟨fun _ _ _ => Nat.le_trans⟩

/-- `sorted(result.paragraphs, key=...)`: Python's `sorted` is the stable
sort by key, which insertion sort by `paragraphKey _ ≤ paragraphKey _`
computes. -/
def sortedParagraphs (l : List Paragraph) : List Paragraph :=
  List.insertionSort (fun a b => paragraphKey a ≤ paragraphKey b) l

/-- Body of the paragraph loop of `extract_text`: for each page number in
the paragraph's bounding regions, append a paragraph fragment to that
page's sequence (creating the entry when absent). -/
def emitParagraph (tc : PageText) (p : Paragraph) : PageText :=
  (p.bounding_regions.map (·.page_number)).foldl
    (fun tc page_num =>
      dictSet tc page_num
        ((dictGet? tc page_num).getD [] ++ [Fragment.paragraph p.content p.role]))
    tc

/-- Body of the page loop of `extract_text`: reset the page's entry to the
empty list, then append one line fragment per line in source order. -/
def emitPage (tc : PageText) (pg : Page) : PageText :=
  pg.lines.foldl
    (fun tc ln =>
      dictSet tc pg.page_number
        ((dictGet? tc pg.page_number).getD [] ++ [Fragment.line ln.content]))
    (dictSet tc pg.page_number [])

/-- The paragraph pass of `extract_text` (the first `if` block). -/
def paragraphPass (r : AnalysisResult) : PageText :=
  if ¬r.paragraphs.isEmpty then
    (sortedParagraphs r.paragraphs).foldl emitParagraph []
  else []

/-- The page pass of `extract_text`, starting from an empty mapping. -/
def pagePass (r : AnalysisResult) : PageText :=
  r.pages.foldl emitPage []

/-- `extract_text(result)` from `app3.py`: build `text_content` from the
paragraphs when there are any; when the mapping is still empty afterwards
and pages exist, rebuild it from the pages' lines. -/
def extract_text (result : AnalysisResult) : PageText :=
  let text_content := paragraphPass result
  if text_content.isEmpty ∧ ¬result.pages.isEmpty then
    result.pages.foldl emitPage text_content
  else text_content

/-- One extracted cell record built by `extract_tables`. -/
structure CellData where
  row_index : Int
  column_index : Int
  content : String
  is_header : Bool
  spans : Nat
deriving Repr, DecidableEq

/-- One extracted table record built by `extract_tables`. -/
structure TableRecord where
  table_id : Nat
  row_count : Nat
  column_count : Nat
  page_numbers : List Nat
  cells : List CellData
deriving Repr, DecidableEq

/-- The bounding-region loop of `extract_tables`: collect the page numbers
of the table's regions, skipping a number already collected (first
occurrence wins, order preserved). -/
def tablePageNumbers (t : Table) : List Nat :=
  (t.bounding_regions.map (·.page_number)).foldl
    (fun acc n => if n ∈ acc then acc else acc ++ [n]) []

/-- The record `table_data` built for one table at index `idx`. -/
def mkTableRecord (idx : Nat) (t : Table) : TableRecord :=
  { table_id := idx
    row_count := t.row_count
    column_count := t.column_count
    page_numbers := tablePageNumbers t
    cells := t.cells.map fun c =>
      { row_index := c.row_index
        column_index := c.column_index
        content := c.content
        is_header := c.kind = some "columnHeader"
        spans := c.column_span.getD 1 } }

/-- The `enumerate(result.tables)` loop of `extract_tables`. -/
def extract_tablesAux (idx : Nat) : List Table → List TableRecord
  | [] => []
  | t :: ts => mkTableRecord idx t :: extract_tablesAux (idx + 1) ts

/-- `extract_tables(result)` from `app3.py`. -/
def extract_tables (result : AnalysisResult) : List TableRecord :=
  extract_tablesAux 0 result.tables

/-! ### Python list indexing -/

/-- Resolve a Python list index against a list of length `n`:
`0 ≤ i < n` stays, `-n ≤ i < 0` wraps to `n + i`, anything else is an
`IndexError`. -/
def pyIndex (n : Nat) (i : Int) : Option Nat :=
  if 0 ≤ i ∧ i < (n : Int) then some i.toNat
  else if -(n : Int) ≤ i ∧ i < 0 then some ((n : Int) + i).toNat
  else none

/-- Python `l[i]` (read). -/
def pyGet (l : List α) (i : Int) : Except String α :=
  match pyIndex l.length i with
  | some j =>
    match l.get? j with
    | some x => Except.ok x
    | none => Except.error "list index out of range"
  | none => Except.error "list index out of range"

/-- Python `l[i] = a` (assignment). -/
def pySet (l : List α) (i : Int) (a : α) : Except String (List α) :=
  match pyIndex l.length i with
  | some j => Except.ok (l.set j a)
  | none => Except.error "list assignment index out of range"

/-! ### Grid building and serialization (inside `process_pdf`) -/

/-- One step of the cell loop: `grid[row][col] = cell["content"]`.
Python first reads `grid[row]`, then assigns index `col` of that inner
list in place. -/
def setCell (grid : List (List String)) (c : CellData) :
    Except String (List (List String)) :=
  match pyGet grid c.row_index with
  | Except.error e => Except.error e
  | Except.ok row =>
    match pySet row c.column_index c.content with
    | Except.error e => Except.error e
    | Except.ok row' => pySet grid c.row_index row'

/-- The grid builder: a `row_count × column_count` grid of empty strings,
then one `setCell` per cell in order.  An out-of-range index surfaces as
an `Except.error` (Python `IndexError`). -/
def buildGrid (t : TableRecord) : Except String (List (List String)) :=
  t.cells.foldlM setCell
    (List.replicate t.row_count (List.replicate t.column_count ""))

/-- Serialize a grid: one line per row, cells joined with `" | "`. -/
def renderGrid (grid : List (List String)) : String :=
  grid.foldl (fun s row => s ++ String.intercalate " | " row ++ "\n") ""

/-- The header block written before a table's grid rows
(`### Table {i+1}` and the comma-joined page numbers). -/
def tableHeader (i : Nat) (t : TableRecord) : String :=
  "\n### Table " ++ toString (i + 1) ++ "\n"
    ++ "Pages: " ++ String.intercalate ", " (t.page_numbers.map toString) ++ "\n\n"

/-- The serialization of one table: header block then grid rows. -/
def renderTable (i : Nat) (t : TableRecord) : Except String String :=
  match buildGrid t with
  | Except.error e => Except.error e
  | Except.ok grid => Except.ok (tableHeader i t ++ renderGrid grid)

/-- The `enumerate(tables)` serialization loop of `process_pdf`. -/
def renderTablesAux (i : Nat) (s : String) :
    List TableRecord → Except String String
  | [] => Except.ok s
  | t :: ts =>
    match renderTable i t with
    | Except.error e => Except.error e
    | Except.ok one => renderTablesAux (i + 1) (s ++ one) ts

/-- `tables_str` of `process_pdf`: empty when there are no tables,
otherwise a `## Tables` heading followed by every table's serialization. -/
def tablesStr (tables : List TableRecord) : Except String String :=
  if ¬tables.isEmpty then
    renderTablesAux 0 "\n\n## Tables\n" tables
  else Except.ok ""

/-- `text_content_str` of `process_pdf`: pages visited in ascending key
order, each prefixed with a page heading, each fragment's content on its
own line. -/
def textContentStr (tc : PageText) : String :=
  (List.insertionSort (fun a b : Nat => a ≤ b) (tc.map Prod.fst)).foldl
    (fun s page_num =>
      ((dictGet? tc page_num).getD []).foldl
        (fun s item => s ++ item.content ++ "\n")
        (s ++ "\n\n### Page " ++ toString page_num ++ "\n"))
    ""

/-- The f-string prompt template of `process_pdf`, with the extracted
text and table strings interpolated. -/
def mkPrompt (text_content_str tables_str : String) : String :=
  "\n            Extract all key information from this invoice and organize it into well-structured markdown tables.\n\n"
    ++ "            The content is as follows:\n"
    ++ "                        Text from the document : " ++ text_content_str ++ "\n"
    ++ "                        Tables from the document : " ++ tables_str ++ "\n\n"
    ++ "            Based on the information provided above, create multiple markdown tables that capture all relevant invoice details. Include:\n\n"
    ++ "            1. Create separate tables for different categories of information (invoice details, vendor information, customer information, line items, payment details, etc.)\n"
    ++ "            2. Name each table appropriately based on its content\n"
    ++ "            3. Include ALL information present in the invoice\n"
    ++ "            4. Group related information logically\n\n"
    ++ "            Requirements:\n"
    ++ "            - Use proper markdown table syntax with headers, separators, and appropriate alignment\n"
    ++ "            - Include clear table titles above each table\n"
    ++ "            - Replace any empty/missing values with \"N/A\" rather than leaving cells blank\n"
    ++ "            - Ensure field names accurately describe the data they contain\n"
    ++ "            - Format numbers, dates, and currency values consistently\n"
    ++ "            - Create as many tables as needed to properly organize the information\n"
    ++ "            - Do not include any explanatory text outside the tables themselves\n\n"
    ++ "            Example format:\n\n"
    ++ "            ### Invoice Details\n"
    ++ "            | Field | Value |\n"
    ++ "            |:------|:------|\n"
    ++ "            | Invoice Number | INV-12345 |\n"
    ++ "            | Date | 2023-05-15 |\n\n"
    ++ "            ### Line Items\n"
    ++ "            | Item Description | Quantity | Unit Price | Total |\n"
    ++ "            |:-----------------|:--------:|:----------:|:------|\n"
    ++ "            | Product A | 2 | $50.00 | $100.00 |\n"
    ++ "            | Service B | 5 | $75.00 | $375.00 |\n"
    ++ "            "

/-- The LLM boundary: connector initialization may fail; a connected LLM
maps a prompt to a response text or raises. -/
abbrev LlmInit := Except String (String → Except String String)

/-- `process_pdf` from `app3.py`.  The analysis-service call (and the
extraction over its result) is modelled by `analysis`; the LLM connector
by `llmInit`.  Every raised exception `e` inside the `try` block is
caught and converted to `"Error processing PDF: " ++ e`. -/
def process_pdf (analysis : Except String AnalysisResult) (llmInit : LlmInit) :
    String :=
  let body : Except String String :=
    match analysis with
    | Except.error e => Except.error e
    | Except.ok result =>
      let text_content := extract_text result
      let tables := extract_tables result
      match llmInit with
      | Except.error e => Except.error e
      | Except.ok llm =>
        let text_content_str := textContentStr text_content
        match tablesStr tables with
        | Except.error e => Except.error e
        | Except.ok tables_str =>
          let prompt := mkPrompt text_content_str tables_str
          llm prompt
  match body with
  | Except.ok r => r
  | Except.error e => "Error processing PDF: " ++ e

/-! ### Specification-side helper definitions -/

/-- Whether some paragraph of the result has a nonempty bounding-region
list, i.e. whether the paragraph pass can emit at least one fragment. -/
def hasRegionB (r : AnalysisResult) : Bool :=
  r.paragraphs.any fun p => !p.bounding_regions.isEmpty

/-- The fragments one paragraph contributes to page `n`: one per bounding
region of the paragraph that names page `n`. -/
def pageFrags (p : Paragraph) (n : Nat) : List Fragment :=
  ((p.bounding_regions.map (·.page_number)).filter (fun m => m == n)).map
    fun _ => Fragment.paragraph p.content p.role

/-- The last cell of the list whose indices are exactly `(i, j)`. -/
def lastMatch (cells : List CellData) (i j : Nat) : Option CellData :=
  match cells with
  | [] => none
  | c :: cs =>
    match lastMatch cs i j with
    | some d => some d
    | none =>
      if c.row_index = (i : Int) ∧ c.column_index = (j : Int) then some c else none

/-- The content the dense grid holds at `(i, j)`: the last cell written
there, or the empty string when no cell addresses that position. -/
def cellAtContent (t : TableRecord) (i j : Nat) : String :=
  match lastMatch t.cells i j with
  | some c => c.content
  | none => ""

/-- Whether a cell's indices are valid Python list indices for a
`rc × cc` grid (negative indices wrap from the end). -/
def pyInRange (rc cc : Nat) (c : CellData) : Bool :=
  (pyIndex rc c.row_index).isSome && (pyIndex cc c.column_index).isSome

/-- Keep the first occurrence of each value, in order of first
appearance: an independent (structural-recursion) description of the
dedup the bounding-region loop of `extract_tables` performs. -/
def firstDedup : List Nat → List Nat
  | [] => []
  | a :: l => a :: firstDedup (l.filter fun x => x != a)
termination_by l => l.length
decreasing_by
  simp only [List.length_cons]
  exact Nat.lt_succ_of_le (List.length_filter_le _ _)

/-! ### Concrete inputs used by counterexamples, examples and witnesses -/

/-- A result with one paragraph (no bounding regions) and one page with
one line: exercises the fallback despite a paragraph being present. -/
def c1res : AnalysisResult where
  paragraphs := [{ content := "orphan", role := none, bounding_regions := [], spans := [] }]
  pages := [{ page_number := 1, lines := [{ content := "hello" }] }]
  tables := []

/-- A 1×1 table whose only cell addresses row 1: row index out of range. -/
def c3res : AnalysisResult where
  paragraphs := []
  pages := []
  tables := [{ row_count := 1, column_count := 1, bounding_regions := []
               cells := [{ row_index := 1, column_index := 0, content := "X"
                           kind := none, column_span := none }] }]

/-- A table whose bounding regions name pages 3 then 2, in that order. -/
def c4res : AnalysisResult where
  paragraphs := []
  pages := []
  tables := [{ row_count := 1, column_count := 1
               bounding_regions := [{ page_number := 3 }, { page_number := 2 }]
               cells := [{ row_index := 0, column_index := 0, content := "X"
                           kind := none, column_span := none }] }]

/-- The 2×2 table of the specification's grid example. -/
def t5rec : TableRecord where
  table_id := 0
  row_count := 2
  column_count := 2
  page_numbers := [1]
  cells :=
    [{ row_index := 0, column_index := 0, content := "A", is_header := false, spans := 1 },
     { row_index := 0, column_index := 1, content := "B", is_header := false, spans := 1 },
     { row_index := 1, column_index := 0, content := "C", is_header := false, spans := 1 },
     { row_index := 1, column_index := 1, content := "D", is_header := false, spans := 1 }]

/-- A paragraph with one span at the given offset and a region on page 1. -/
def paraAt (c : String) (o : Nat) : Paragraph where
  content := c
  role := none
  bounding_regions := [{ page_number := 1 }]
  spans := [{ offset := o }]

/-- Paragraphs with first-span offsets `[50, 10, 30]`. -/
def ex6 : AnalysisResult where
  paragraphs := [paraAt "x50" 50, paraAt "x10" 10, paraAt "x30" 30]
  pages := []
  tables := []

/-- One paragraph whose bounding regions name pages 2 and 3. -/
def ex7 : AnalysisResult where
  paragraphs := [{ content := "shared", role := some "title"
                   bounding_regions := [{ page_number := 2 }, { page_number := 3 }]
                   spans := [{ offset := 0 }] }]
  pages := []
  tables := []

/-- Zero paragraphs, two pages (the second with zero lines). -/
def ex8 : AnalysisResult where
  paragraphs := []
  pages := [{ page_number := 2, lines := [{ content := "a" }, { content := "b" }] },
            { page_number := 5, lines := [] }]
  tables := []

/-- The empty analysis result. -/
def exEmpty : AnalysisResult where
  paragraphs := []
  pages := []
  tables := []

/-! ### Dictionary lemmas -/

theorem dictGet?_dictSet_self (d : List (Nat × β)) (k : Nat) (v : β) :
    dictGet? (dictSet d k v) k = some v := by
  induction d with
  | nil => simp [dictGet?, dictSet]
  | cons hd tl ih =>
    obtain ⟨k', v'⟩ := hd
    by_cases h : k' = k
    · simp [dictGet?, dictSet, h]
    · simp [dictGet?, dictSet, h, ih]

theorem dictGet?_dictSet_ne (d : List (Nat × β)) {k k' : Nat} (v : β) (h : k' ≠ k) :
    dictGet? (dictSet d k v) k' = dictGet? d k' := by
  induction d with
  | nil => simp [dictGet?, dictSet, Ne.symm h]
  | cons hd tl ih =>
    obtain ⟨k₀, v₀⟩ := hd
    by_cases hk : k₀ = k
    · subst hk
      simp [dictGet?, dictSet, Ne.symm h]
    · simp only [dictSet, if_neg hk]
      by_cases hk' : k₀ = k'
      · simp [dictGet?, hk']
      · simp [dictGet?, hk', ih]

theorem dictSet_ne_nil (d : List (Nat × β)) (k : Nat) (v : β) :
    dictSet d k v ≠ [] := by
  cases d with
  | nil => simp [dictSet]
  | cons hd tl =>
    obtain ⟨k', v'⟩ := hd
    by_cases h : k' = k <;> simp [dictSet, h]

theorem dictGet?_eq_none_of_not_mem {d : List (Nat × β)} {k : Nat}
    (h : k ∉ d.map Prod.fst) : dictGet? d k = none := by
  induction d with
  | nil => rfl
  | cons hd tl ih =>
    obtain ⟨k', v'⟩ := hd
    simp only [List.map_cons, List.mem_cons] at h
    push_neg at h
    simp [dictGet?, Ne.symm h.1, ih h.2]

theorem dictSet_append_fresh {d : List (Nat × β)} {k : Nat}
    (h : k ∉ d.map Prod.fst) (v : β) : dictSet d k v = d ++ [(k, v)] := by
  induction d with
  | nil => rfl
  | cons hd tl ih =>
    obtain ⟨k', v'⟩ := hd
    simp only [List.map_cons, List.mem_cons] at h
    push_neg at h
    simp [dictSet, Ne.symm h.1, ih h.2]

theorem dictGet?_append_last {d : List (Nat × β)} {k : Nat}
    (h : k ∉ d.map Prod.fst) (v : β) : dictGet? (d ++ [(k, v)]) k = some v := by
  induction d with
  | nil => simp [dictGet?]
  | cons hd tl ih =>
    obtain ⟨k', v'⟩ := hd
    simp only [List.map_cons, List.mem_cons] at h
    push_neg at h
    simp [dictGet?, Ne.symm h.1, ih h.2]

theorem dictSet_append_last {d : List (Nat × β)} {k : Nat}
    (h : k ∉ d.map Prod.fst) (v w : β) :
    dictSet (d ++ [(k, w)]) k v = d ++ [(k, v)] := by
  induction d with
  | nil => simp [dictSet]
  | cons hd tl ih =>
    obtain ⟨k', v'⟩ := hd
    simp only [List.map_cons, List.mem_cons] at h
    push_neg at h
    simp [dictSet, Ne.symm h.1, ih h.2]

/-! ### Python index lemmas -/

theorem pyIndex_lt {n : Nat} {i : Int} {j : Nat} (h : pyIndex n i = some j) :
    j < n := by
  unfold pyIndex at h
  split_ifs at h with h1 h2
  · cases h
    omega
  · cases h
    omega

theorem pyIndex_of_nonneg {n : Nat} {i : Int} (h0 : 0 ≤ i) (h1 : i < (n : Int)) :
    pyIndex n i = some i.toNat := by
  unfold pyIndex
  rw [if_pos ⟨h0, h1⟩]

theorem pyGet_of_some {l : List α} {i : Int} {j : Nat} (h : pyIndex l.length i = some j) :
    ∃ x, l.get? j = some x ∧ pyGet l i = Except.ok x := by
  have hj := pyIndex_lt h
  refine ⟨l.get ⟨j, hj⟩, List.get?_eq_get hj, ?_⟩
  unfold pyGet
  rw [h]
  simp [List.getElem?_eq_getElem hj]

theorem pySet_of_some {l : List α} {i : Int} {j : Nat} (h : pyIndex l.length i = some j)
    (a : α) : pySet l i a = Except.ok (l.set j a) := by
  unfold pySet
  rw [h]

theorem pyGet_of_none {l : List α} {i : Int} (h : pyIndex l.length i = none) :
    pyGet l i = Except.error "list index out of range" := by
  unfold pyGet
  rw [h]

theorem pySet_of_none {l : List α} {i : Int} (h : pyIndex l.length i = none) (a : α) :
    pySet l i a = Except.error "list assignment index out of range" := by
  unfold pySet
  rw [h]

/-! ### Grid builder lemmas -/

theorem getD_set_self {l : List α} {i : Nat} (h : i < l.length) (a d : α) :
    (l.set i a).getD i d = a := by
  rw [List.getD_eq_getElem?_getD, List.getElem?_set_eq h]
  rfl

theorem getD_set_ne {l : List α} {i j : Nat} (h : i ≠ j) (a d : α) :
    (l.set i a).getD j d = l.getD j d := by
  rw [List.getD_eq_getElem?_getD, List.getElem?_set_ne h, ← List.getD_eq_getElem?_getD]

/-- A successful `setCell`: both indices resolve, the grid keeps its
shape, and exactly position `(i, j)` is overwritten. -/
theorem setCell_ok {g : List (List String)} {c : CellData} {rc cc : Nat}
    (hg : g.length = rc) (hrows : ∀ row ∈ g, row.length = cc)
    {i j : Nat} (hi : pyIndex rc c.row_index = some i)
    (hj : pyIndex cc c.column_index = some j) :
    setCell g c = Except.ok (g.set i ((g.getD i []).set j c.content)) := by
  have hi' : pyIndex g.length c.row_index = some i := by rw [hg]; exact hi
  obtain ⟨row, hrow, hget⟩ := pyGet_of_some hi'
  have hrowlen : row.length = cc := hrows row (List.get?_mem hrow)
  have hj' : pyIndex row.length c.column_index = some j := by rw [hrowlen]; exact hj
  have hrowD : g.getD i [] = row := by
    rw [List.getD_eq_getElem?_getD, ← List.get?_eq_getElem?, hrow]
    rfl
  unfold setCell
  rw [hget]
  show (match pySet row c.column_index c.content with
    | Except.error e => Except.error e
    | Except.ok row' => pySet g c.row_index row') = _
  rw [pySet_of_some hj' c.content]
  show pySet g c.row_index (row.set j c.content) = _
  rw [@pySet_of_some _ g c.row_index i hi' (row.set j c.content), hrowD]

/-- A failed `setCell`: some index does not resolve. -/
theorem setCell_error {g : List (List String)} {c : CellData} {rc cc : Nat}
    (hg : g.length = rc) (hrows : ∀ row ∈ g, row.length = cc)
    (hbad : pyInRange rc cc c = false) :
    ∃ e, setCell g c = Except.error e := by
  unfold pyInRange at hbad
  rw [Bool.and_eq_false_iff] at hbad
  cases hrowidx : pyIndex rc c.row_index with
  | none =>
    refine ⟨"list index out of range", ?_⟩
    unfold setCell
    rw [pyGet_of_none (by rw [hg]; exact hrowidx)]
  | some i =>
    have hnone : pyIndex cc c.column_index = none := by
      cases hbad with
      | inl h => rw [hrowidx] at h; simp at h
      | inr h => exact Option.not_isSome_iff_eq_none.mp (by simp [h])
    obtain ⟨row, hrow, hget⟩ := @pyGet_of_some _ g c.row_index i (by rw [hg]; exact hrowidx)
    have hrowlen : row.length = cc := hrows row (List.get?_mem hrow)
    refine ⟨"list assignment index out of range", ?_⟩
    unfold setCell
    rw [hget]
    show (match pySet row c.column_index c.content with
      | Except.error e => Except.error e
      | Except.ok row' => pySet g c.row_index row') = _
    rw [pySet_of_none (by rw [hrowlen]; exact hnone)]

theorem getD_mem {l : List α} {i : Nat} (h : i < l.length) (d : α) : l.getD i d ∈ l := by
  rw [List.getD_eq_getElem?_getD, List.getElem?_eq_getElem h]
  exact List.getElem_mem h

theorem foldlM_setCell_cons_ok {g g' : List (List String)} {c : CellData}
    (cells : List CellData) (h : setCell g c = Except.ok g') :
    List.foldlM setCell g (c :: cells) = List.foldlM setCell g' cells := by
  show (setCell g c >>= fun x => List.foldlM setCell x cells) = _
  rw [h]
  rfl

theorem foldlM_setCell_cons_error {g : List (List String)} {c : CellData} {e : String}
    (cells : List CellData) (h : setCell g c = Except.error e) :
    List.foldlM setCell g (c :: cells) = Except.error e := by
  show (setCell g c >>= fun x => List.foldlM setCell x cells) = _
  rw [h]
  rfl

theorem lastMatch_cons (c : CellData) (cs : List CellData) (i j : Nat) :
    lastMatch (c :: cs) i j =
      match lastMatch cs i j with
      | some d => some d
      | none =>
        if c.row_index = (i : Int) ∧ c.column_index = (j : Int) then some c else none :=
  rfl

/-- Shape preservation for a successful `setCell` result. -/
theorem setCell_shape {g : List (List String)} {i j : Nat} {c : CellData} {rc cc : Nat}
    (hg : g.length = rc) (hrows : ∀ row ∈ g, row.length = cc)
    (hi : i < rc) (hj : j < cc) :
    (g.set i ((g.getD i []).set j c.content)).length = rc
    ∧ ∀ row ∈ g.set i ((g.getD i []).set j c.content), row.length = cc := by
  constructor
  · rw [List.length_set]; exact hg
  · intro row hrow
    rcases List.mem_or_eq_of_mem_set hrow with h | h
    · exact hrows row h
    · subst h
      rw [List.length_set]
      rcases Nat.lt_or_ge i g.length with hlt | hge
      · have : g.getD i [] = g.get ⟨i, hlt⟩ := by
          rw [List.getD_eq_getElem?_getD, List.getElem?_eq_getElem hlt]
          rfl
        rw [this]
        exact hrows _ (List.get_mem g i hlt)
      · omega

/-- Folding `setCell` over cells that are all in `[0, rc) × [0, cc)`
succeeds, keeps the grid shape, and leaves at each position the content
of the last cell addressing it. -/
theorem foldlM_setCell_ok {rc cc : Nat} (cells : List CellData) :
    ∀ (g : List (List String)), g.length = rc → (∀ row ∈ g, row.length = cc) →
    (∀ c ∈ cells, 0 ≤ c.row_index ∧ c.row_index < (rc : Int)
      ∧ 0 ≤ c.column_index ∧ c.column_index < (cc : Int)) →
    ∃ g', List.foldlM setCell g cells = Except.ok g'
      ∧ g'.length = rc ∧ (∀ row ∈ g', row.length = cc)
      ∧ ∀ i j, i < rc → j < cc →
          (g'.getD i []).getD j "" =
            (match lastMatch cells i j with
             | some c => c.content
             | none => (g.getD i []).getD j "") := by
  induction cells with
  | nil =>
    intro g hg hrows _
    exact ⟨g, rfl, hg, hrows, by intro i j _ _; simp [lastMatch]⟩
  | cons c cells ih =>
    intro g hg hrows hc
    obtain ⟨hr0, hr1, hc0, hc1⟩ := hc c (List.mem_cons_self c cells)
    have hi : pyIndex rc c.row_index = some c.row_index.toNat :=
      pyIndex_of_nonneg hr0 hr1
    have hj : pyIndex cc c.column_index = some c.column_index.toNat :=
      pyIndex_of_nonneg hc0 hc1
    have hiLt : c.row_index.toNat < rc := by omega
    have hjLt : c.column_index.toNat < cc := by omega
    have hok := setCell_ok hg hrows hi hj
    set g1 := g.set c.row_index.toNat
      ((g.getD c.row_index.toNat []).set c.column_index.toNat c.content) with hg1
    obtain ⟨hlen1, hrows1⟩ :=
      @setCell_shape g c.row_index.toNat c.column_index.toNat c rc cc hg hrows hiLt hjLt
    obtain ⟨g', hfold, hlen', hrows', hval⟩ :=
      ih g1 hlen1 hrows1 (fun d hd => hc d (List.mem_cons_of_mem c hd))
    refine ⟨g', ?_, hlen', hrows', ?_⟩
    · rw [foldlM_setCell_cons_ok cells hok]
      exact hfold
    · intro i j hiB hjB
      rw [hval i j hiB hjB, lastMatch_cons]
      cases hlm : lastMatch cells i j with
      | some d => rfl
      | none =>
        by_cases hmatch : c.row_index = (i : Int) ∧ c.column_index = (j : Int)
        · rw [if_pos hmatch]
          show (g1.getD i []).getD j "" = c.content
          have hii : c.row_index.toNat = i := by omega
          have hjj : c.column_index.toNat = j := by omega
          rw [hg1, hii, hjj]
          have hglen : i < g.length := by omega
          have hrowlen : j < (g.getD i []).length := by
            rw [hrows _ (getD_mem hglen [])]
            exact hjB
          rw [getD_set_self hglen, getD_set_self hrowlen]
        · rw [if_neg hmatch]
          show (g1.getD i []).getD j "" = (g.getD i []).getD j ""
          by_cases hii : c.row_index.toNat = i
          · have hjj : c.column_index.toNat ≠ j := by
              intro hjj
              exact hmatch ⟨by omega, by omega⟩
            rw [hg1, hii]
            have hglen : i < g.length := by omega
            rw [getD_set_self hglen, getD_set_ne hjj]
          · rw [hg1, getD_set_ne hii]

/-- Folding `setCell` raises exactly when some cell's indices do not
resolve as Python list indices for the `rc × cc` grid. -/
theorem foldlM_setCell_error_iff {rc cc : Nat} (cells : List CellData) :
    ∀ (g : List (List String)), g.length = rc → (∀ row ∈ g, row.length = cc) →
    ((∃ e, List.foldlM setCell g cells = Except.error e)
      ↔ cells.any (fun c => !pyInRange rc cc c) = true) := by
  induction cells with
  | nil =>
    intro g _ _
    constructor
    · rintro ⟨e, he⟩
      cases he
    · intro h
      simp [List.any_nil] at h
  | cons c cells ih =>
    intro g hg hrows
    cases hin : pyInRange rc cc c with
    | false =>
      obtain ⟨e, he⟩ := setCell_error hg hrows hin
      constructor
      · intro _
        simp [List.any_cons, hin]
      · intro _
        exact ⟨e, foldlM_setCell_cons_error cells he⟩
    | true =>
      unfold pyInRange at hin
      rw [Bool.and_eq_true_iff] at hin
      obtain ⟨i, hi⟩ := Option.isSome_iff_exists.mp hin.1
      obtain ⟨j, hj⟩ := Option.isSome_iff_exists.mp hin.2
      have hok := setCell_ok hg hrows hi hj
      obtain ⟨hlen1, hrows1⟩ :=
        @setCell_shape g i j c rc cc hg hrows (pyIndex_lt hi) (pyIndex_lt hj)
      have hpc : pyInRange rc cc c = true := by
        simp [pyInRange, hin.1, hin.2]
      rw [foldlM_setCell_cons_ok cells hok, ih _ hlen1 hrows1]
      simp [List.any_cons, hpc]

/-! ### Table extraction lemmas -/

theorem extract_tablesAux_get? (k : Nat) (ts : List Table) (i : Nat) :
    (extract_tablesAux k ts).get? i = (ts.get? i).map (fun t => mkTableRecord (k + i) t) := by
  induction ts generalizing k i with
  | nil => simp [extract_tablesAux]
  | cons t ts ih =>
    cases i with
    | zero => simp [extract_tablesAux]
    | succ n =>
      simp only [extract_tablesAux, List.get?_cons_succ, ih (k + 1) n]
      have h : k + 1 + n = k + (n + 1) := by omega
      rw [h]

theorem firstDedup_cons (a : Nat) (l : List Nat) :
    firstDedup (a :: l) = a :: firstDedup (l.filter fun x => x != a) := by
  rw [firstDedup]

theorem dedupFold_eq (l : List Nat) :
    ∀ acc : List Nat,
      l.foldl (fun acc n => if n ∈ acc then acc else acc ++ [n]) acc
        = acc ++ firstDedup (l.filter fun x => decide (x ∉ acc)) := by
  induction l with
  | nil =>
    intro acc
    simp [firstDedup]
  | cons a l ih =>
    intro acc
    by_cases ha : a ∈ acc
    · rw [List.foldl_cons, if_pos ha, ih acc, List.filter_cons]
      simp [ha]
    · rw [List.foldl_cons, if_neg ha, ih (acc ++ [a]), List.filter_cons]
      simp only [ha, not_false_iff, decide_True, if_pos]
      rw [firstDedup_cons, List.append_assoc]
      congr 1
      show a :: firstDedup _ = a :: firstDedup _
      congr 2
      rw [List.filter_filter]
      apply List.filter_congr
      intro x _
      by_cases hxa : x = a
      · simp [hxa]
      · simp [hxa, List.mem_append]

theorem tablePageNumbers_eq_firstDedup (t : Table) :
    tablePageNumbers t = firstDedup (t.bounding_regions.map (·.page_number)) := by
  unfold tablePageNumbers
  rw [dedupFold_eq]
  have : ((t.bounding_regions.map (·.page_number)).filter
      fun x => decide (x ∉ ([] : List Nat))) = t.bounding_regions.map (·.page_number) := by
    apply List.filter_eq_self.mpr
    intro x _
    simp
  rw [this, List.nil_append]

/-! ### Document-processor lemmas -/

theorem process_pdf_ok_eq (result : AnalysisResult) (llm : String → Except String String) :
    process_pdf (Except.ok result) (Except.ok llm)
      = match tablesStr (extract_tables result) with
        | Except.error e => "Error processing PDF: " ++ e
        | Except.ok ts =>
          match llm (mkPrompt (textContentStr (extract_text result)) ts) with
          | Except.error e => "Error processing PDF: " ++ e
          | Except.ok r => r := by
  show (match
      (match tablesStr (extract_tables result) with
        | Except.error e => Except.error e
        | Except.ok tables_str =>
          llm (mkPrompt (textContentStr (extract_text result)) tables_str)) with
    | Except.ok r => r
    | Except.error e => "Error processing PDF: " ++ e) = _
  cases hts : tablesStr (extract_tables result) with
  | error e => rfl
  | ok ts =>
    show (match llm (mkPrompt (textContentStr (extract_text result)) ts) with
        | Except.ok r => r
        | Except.error e => "Error processing PDF: " ++ e)
      = (match llm (mkPrompt (textContentStr (extract_text result)) ts) with
        | Except.error e => "Error processing PDF: " ++ e
        | Except.ok r => r)
    cases llm (mkPrompt (textContentStr (extract_text result)) ts) with
    | error e => rfl
    | ok r => rfl

theorem foldl_string_append (xs : List String) :
    ∀ s : String, xs.foldl (· ++ ·) s = s ++ xs.foldl (· ++ ·) "" := by
  induction xs with
  | nil =>
    intro s
    rw [List.foldl_nil, List.foldl_nil, String.append_empty]
  | cons x xs ih =>
    intro s
    rw [List.foldl_cons, ih (s ++ x), List.foldl_cons, ih ("" ++ x),
      ← String.append_assoc]
    rfl

theorem join_cons (x : String) (xs : List String) :
    String.join (x :: xs) = x ++ String.join xs := by
  show (x :: xs).foldl (· ++ ·) "" = x ++ xs.foldl (· ++ ·) ""
  rw [List.foldl_cons, foldl_string_append xs ("" ++ x)]
  rfl

theorem foldl_append_eq_join (f : List String → String) (l : List (List String)) :
    ∀ s : String, l.foldl (fun s row => s ++ f row) s = s ++ String.join (l.map f) := by
  induction l with
  | nil =>
    intro s
    show s = s ++ String.join []
    rw [show String.join [] = "" from rfl, String.append_empty]
  | cons a l ih =>
    intro s
    rw [List.foldl_cons, ih (s ++ f a), List.map_cons, join_cons, String.append_assoc]

theorem renderGrid_eq_join (g : List (List String)) :
    renderGrid g = String.join (g.map fun row => String.intercalate " | " row ++ "\n") := by
  unfold renderGrid
  simp only [String.append_assoc]
  rw [foldl_append_eq_join (fun row => String.intercalate " | " row ++ "\n") g ""]
  simp

/-! ### Text-extractor lemmas -/

theorem getD_foldl_append (f : Fragment) (ns : List Nat) :
    ∀ (tc : PageText) (n : Nat),
      (dictGet? (ns.foldl
          (fun tc m => dictSet tc m ((dictGet? tc m).getD [] ++ [f])) tc) n).getD []
        = (dictGet? tc n).getD [] ++ (ns.filter (fun m => m == n)).map (fun _ => f) := by
  induction ns with
  | nil =>
    intro tc n
    simp
  | cons m ns ih =>
    intro tc n
    rw [List.foldl_cons, ih, List.filter_cons]
    by_cases hmn : m = n
    · subst hmn
      simp only [beq_self_eq_true, if_pos]
      rw [dictGet?_dictSet_self]
      simp [List.append_assoc]
    · have hb : (m == n) = false := by simp [hmn]
      rw [hb]
      simp only [Bool.false_eq_true, if_false]
      rw [dictGet?_dictSet_ne _ _ (Ne.symm hmn)]

theorem getD_emitParagraph (tc : PageText) (p : Paragraph) (n : Nat) :
    (dictGet? (emitParagraph tc p) n).getD []
      = (dictGet? tc n).getD [] ++ pageFrags p n := by
  unfold emitParagraph pageFrags
  exact getD_foldl_append _ _ tc n

theorem getD_foldl_emitParagraph (l : List Paragraph) :
    ∀ (tc : PageText) (n : Nat),
      (dictGet? (l.foldl emitParagraph tc) n).getD []
        = (dictGet? tc n).getD [] ++ l.flatMap (fun p => pageFrags p n) := by
  induction l with
  | nil =>
    intro tc n
    simp
  | cons p l ih =>
    intro tc n
    rw [List.foldl_cons, ih, getD_emitParagraph, List.append_assoc]
    rfl

theorem foldl_append_ne_nil (f : Fragment) (ns : List Nat) :
    ∀ tc : PageText, tc ≠ [] ∨ ns ≠ [] →
      ns.foldl (fun tc m => dictSet tc m ((dictGet? tc m).getD [] ++ [f])) tc ≠ [] := by
  induction ns with
  | nil =>
    intro tc h
    cases h with
    | inl h => exact h
    | inr h => exact absurd rfl h
  | cons m ns ih =>
    intro tc _
    rw [List.foldl_cons]
    exact ih _ (Or.inl (dictSet_ne_nil _ _ _))

theorem emitParagraph_ne_nil {tc : PageText} {p : Paragraph}
    (h : tc ≠ [] ∨ p.bounding_regions ≠ []) : emitParagraph tc p ≠ [] := by
  unfold emitParagraph
  apply foldl_append_ne_nil
  cases h with
  | inl h => exact Or.inl h
  | inr h =>
    right
    simpa using h

theorem emitParagraph_nil_regions {tc : PageText} {p : Paragraph}
    (h : p.bounding_regions = []) : emitParagraph tc p = tc := by
  unfold emitParagraph
  rw [h]
  rfl

theorem foldl_emitParagraph_ne_nil (l : List Paragraph) :
    ∀ tc : PageText, (tc ≠ [] ∨ ∃ p ∈ l, p.bounding_regions ≠ []) →
      l.foldl emitParagraph tc ≠ [] := by
  induction l with
  | nil =>
    intro tc h
    cases h with
    | inl h => exact h
    | inr h =>
      obtain ⟨p, hp, _⟩ := h
      cases hp
  | cons p l ih =>
    intro tc h
    rw [List.foldl_cons]
    cases h with
    | inl h => exact ih _ (Or.inl (emitParagraph_ne_nil (Or.inl h)))
    | inr h =>
      obtain ⟨q, hq, hqr⟩ := h
      cases List.mem_cons.mp hq with
      | inl hqp =>
        subst hqp
        exact ih _ (Or.inl (emitParagraph_ne_nil (Or.inr hqr)))
      | inr hql => exact ih _ (Or.inr ⟨q, hql, hqr⟩)

theorem foldl_emitParagraph_of_no_regions (l : List Paragraph) :
    ∀ tc : PageText, (∀ p ∈ l, p.bounding_regions = []) →
      l.foldl emitParagraph tc = tc := by
  induction l with
  | nil =>
    intro tc _
    rfl
  | cons p l ih =>
    intro tc h
    rw [List.foldl_cons, emitParagraph_nil_regions (h p (List.mem_cons_self p l))]
    exact ih tc (fun q hq => h q (List.mem_cons_of_mem p hq))

theorem foldl_emitParagraph_filter (l : List Paragraph) :
    ∀ tc : PageText, l.foldl emitParagraph tc
      = (l.filter fun p => !p.bounding_regions.isEmpty).foldl emitParagraph tc := by
  induction l with
  | nil =>
    intro tc
    rfl
  | cons p l ih =>
    intro tc
    rw [List.foldl_cons, List.filter_cons]
    cases hp : p.bounding_regions.isEmpty with
    | true =>
      simp only [hp, Bool.not_true, Bool.false_eq_true, if_false]
      rw [emitParagraph_nil_regions (List.isEmpty_iff.mp hp), ih]
    | false =>
      simp only [hp, Bool.not_false, if_true]
      rw [List.foldl_cons, ih]

end InvoiceParser

namespace InvoiceParser

/-! ### Stable-sort lemmas for the paragraph order -/

theorem perm_sortedParagraphs (l : List Paragraph) : (sortedParagraphs l).Perm l :=
  List.perm_insertionSort _ l

theorem sorted_sortedParagraphs (l : List Paragraph) :
    List.Sorted (fun a b => paragraphKey a ≤ paragraphKey b) (sortedParagraphs l) :=
  List.sorted_insertionSort _ l

theorem filter_key_orderedInsert_eq {k : Nat} {a : Paragraph} (h : paragraphKey a = k)
    (m : List Paragraph) :
    (List.orderedInsert (fun x y => paragraphKey x ≤ paragraphKey y) a m).filter
        (fun p => paragraphKey p == k)
      = a :: m.filter (fun p => paragraphKey p == k) := by
  induction m with
  | nil => simp [List.orderedInsert, List.filter_cons, h]
  | cons b m ih =>
    rw [List.orderedInsert]
    by_cases hab : paragraphKey a ≤ paragraphKey b
    · rw [if_pos hab, List.filter_cons]
      simp [h]
    · rw [if_neg hab]
      have hbk : (paragraphKey b == k) = false := by
        have : paragraphKey b < paragraphKey a := Nat.lt_of_not_le hab
        simp only [beq_eq_false_iff_ne, ne_eq]
        omega
      rw [List.filter_cons, hbk]
      simp only [Bool.false_eq_true, if_false]
      rw [ih, List.filter_cons, hbk]
      simp

theorem filter_key_orderedInsert_ne {k : Nat} {a : Paragraph} (h : paragraphKey a ≠ k)
    (m : List Paragraph) :
    (List.orderedInsert (fun x y => paragraphKey x ≤ paragraphKey y) a m).filter
        (fun p => paragraphKey p == k)
      = m.filter (fun p => paragraphKey p == k) := by
  induction m with
  | nil => simp [List.orderedInsert, List.filter_cons, h]
  | cons b m ih =>
    rw [List.orderedInsert]
    by_cases hab : paragraphKey a ≤ paragraphKey b
    · rw [if_pos hab, List.filter_cons]
      simp [h]
    · rw [if_neg hab, List.filter_cons, List.filter_cons]
      cases hbk : (paragraphKey b == k) with
      | true => rw [ih]
      | false => exact ih

theorem filter_key_sortedParagraphs (l : List Paragraph) (k : Nat) :
    (sortedParagraphs l).filter (fun p => paragraphKey p == k)
      = l.filter (fun p => paragraphKey p == k) := by
  induction l with
  | nil => rfl
  | cons p l ih =>
    show (List.orderedInsert _ p (sortedParagraphs l)).filter _ = _
    by_cases h : paragraphKey p = k
    · rw [filter_key_orderedInsert_eq h, ih, List.filter_cons]
      simp [h]
    · rw [filter_key_orderedInsert_ne h, ih, List.filter_cons]
      simp [h]

theorem orderedInsert_eq_cons {a : Paragraph} {m : List Paragraph}
    (h : ∀ b ∈ m, paragraphKey a ≤ paragraphKey b) :
    List.orderedInsert (fun x y => paragraphKey x ≤ paragraphKey y) a m = a :: m := by
  cases m with
  | nil => rfl
  | cons b m =>
    rw [List.orderedInsert, if_pos (h b (List.mem_cons_self b m))]

theorem filter_orderedInsert_pos {q : Paragraph → Bool} {a : Paragraph} (hqa : q a = true) :
    ∀ m : List Paragraph,
      List.Sorted (fun x y => paragraphKey x ≤ paragraphKey y) m →
      (List.orderedInsert (fun x y => paragraphKey x ≤ paragraphKey y) a m).filter q
        = List.orderedInsert (fun x y => paragraphKey x ≤ paragraphKey y) a (m.filter q) := by
  intro m
  induction m with
  | nil =>
    intro _
    simp [List.orderedInsert, List.filter_cons, hqa]
  | cons b m ih =>
    intro hsort
    rw [List.orderedInsert]
    by_cases hab : paragraphKey a ≤ paragraphKey b
    · rw [if_pos hab, List.filter_cons, List.filter_cons]
      cases hqb : q b with
      | true =>
        simp only [hqa, if_true]
        rw [orderedInsert_eq_cons]
        intro c hc
        rw [List.mem_cons] at hc
        cases hc with
        | inl hcb =>
          subst hcb
          exact hab
        | inr hcm =>
          have hcm' := List.mem_of_mem_filter hcm
          exact Nat.le_trans hab (List.rel_of_sorted_cons hsort c hcm')
      | false =>
        simp only [hqa, if_true, Bool.false_eq_true, if_false]
        rw [orderedInsert_eq_cons]
        intro c hc
        have hcm' := List.mem_of_mem_filter hc
        exact Nat.le_trans hab (List.rel_of_sorted_cons hsort c hcm')
    · rw [if_neg hab, List.filter_cons, List.filter_cons]
      cases hqb : q b with
      | true =>
        simp only [if_true]
        rw [List.orderedInsert, if_neg hab, ih hsort.of_cons]
      | false =>
        simp only [Bool.false_eq_true, if_false]
        exact ih hsort.of_cons

theorem filter_orderedInsert_neg {q : Paragraph → Bool} {a : Paragraph} (hqa : q a = false) :
    ∀ m : List Paragraph,
      (List.orderedInsert (fun x y => paragraphKey x ≤ paragraphKey y) a m).filter q
        = m.filter q := by
  intro m
  induction m with
  | nil => simp [List.orderedInsert, List.filter_cons, hqa]
  | cons b m ih =>
    rw [List.orderedInsert]
    by_cases hab : paragraphKey a ≤ paragraphKey b
    · rw [if_pos hab, List.filter_cons]
      simp [hqa]
    · rw [if_neg hab, List.filter_cons, List.filter_cons]
      cases hqb : q b with
      | true => rw [ih]
      | false => exact ih

theorem sortedParagraphs_filter_comm (q : Paragraph → Bool) :
    ∀ l : List Paragraph, sortedParagraphs (l.filter q) = (sortedParagraphs l).filter q := by
  intro l
  induction l with
  | nil => rfl
  | cons a l ih =>
    show sortedParagraphs ((a :: l).filter q)
      = (List.orderedInsert _ a (sortedParagraphs l)).filter q
    rw [List.filter_cons]
    cases hqa : q a with
    | true =>
      simp only [if_true]
      show List.orderedInsert _ a (sortedParagraphs (l.filter q)) = _
      rw [ih, filter_orderedInsert_pos hqa _ (sorted_sortedParagraphs l)]
    | false =>
      simp only [Bool.false_eq_true, if_false]
      rw [ih, filter_orderedInsert_neg hqa]

/-! ### Dichotomy helpers for `extract_text` -/

theorem paragraphPass_eq_nil_of_no_region {r : AnalysisResult} (h : hasRegionB r = false) :
    paragraphPass r = [] := by
  unfold paragraphPass
  by_cases hp : r.paragraphs.isEmpty
  · rw [if_neg (by simpa using hp)]
  · rw [if_pos (by simpa using hp)]
    apply foldl_emitParagraph_of_no_regions
    intro p hp'
    have hmem : p ∈ r.paragraphs := ((perm_sortedParagraphs r.paragraphs).mem_iff).mp hp'
    unfold hasRegionB at h
    rw [List.any_eq_false] at h
    have := h p hmem
    simpa using this

theorem paragraphPass_ne_nil_of_region {r : AnalysisResult} (h : hasRegionB r = true) :
    paragraphPass r ≠ [] := by
  unfold hasRegionB at h
  rw [List.any_eq_true] at h
  obtain ⟨p, hp, hpr⟩ := h
  unfold paragraphPass
  rw [if_pos (by
    simp only [List.isEmpty_iff]
    intro hnil
    rw [hnil] at hp
    cases hp)]
  apply foldl_emitParagraph_ne_nil
  right
  refine ⟨p, ((perm_sortedParagraphs r.paragraphs).mem_iff).mpr hp, ?_⟩
  simpa using hpr

theorem extract_text_eq_paragraphPass {r : AnalysisResult} (h : hasRegionB r = true) :
    ∀ ps : List Page, extract_text { r with pages := ps } = paragraphPass r := by
  intro ps
  show (if (paragraphPass { r with pages := ps }).isEmpty ∧ ¬(ps.isEmpty = true) then
      ps.foldl emitPage (paragraphPass { r with pages := ps })
    else paragraphPass { r with pages := ps }) = paragraphPass r
  have hpp : paragraphPass { r with pages := ps } = paragraphPass r := rfl
  rw [hpp, if_neg]
  intro hcon
  exact paragraphPass_ne_nil_of_region h (List.isEmpty_iff.mp hcon.1)

theorem extract_text_eq_pagePass {r : AnalysisResult} (h : hasRegionB r = false) :
    extract_text r = pagePass r := by
  show (if (paragraphPass r).isEmpty ∧ ¬(r.pages.isEmpty = true) then
      r.pages.foldl emitPage (paragraphPass r)
    else paragraphPass r) = pagePass r
  rw [paragraphPass_eq_nil_of_no_region h]
  by_cases hpg : r.pages.isEmpty
  · rw [if_neg (by simp [hpg])]
    unfold pagePass
    rw [List.isEmpty_iff.mp hpg]
    rfl
  · rw [if_pos ⟨rfl, by simpa using hpg⟩]
    rfl

/-- The per-page fragments of `extract_text` in the paragraph case: the
concatenation, in stable-sorted paragraph order, of each paragraph's
fragments for that page. -/
theorem extract_text_flatMap_pageFrags {r : AnalysisResult} (h : hasRegionB r = true)
    (n : Nat) :
    (dictGet? (extract_text r) n).getD []
      = (sortedParagraphs r.paragraphs).flatMap (fun p => pageFrags p n) := by
  have he : extract_text r = paragraphPass r := extract_text_eq_paragraphPass h r.pages
  rw [he]
  unfold paragraphPass
  rw [if_pos (by
    simp only [List.isEmpty_iff]
    unfold hasRegionB at h
    rw [List.any_eq_true] at h
    obtain ⟨p, hp, _⟩ := h
    intro hnil
    rw [hnil] at hp
    cases hp)]
  rw [getD_foldl_emitParagraph]
  rfl

/-! ### Page-fallback lemmas -/

theorem emitPage_fresh (tc : PageText) (pg : Page) (h : pg.page_number ∉ tc.map Prod.fst) :
    emitPage tc pg
      = tc ++ [(pg.page_number, pg.lines.map fun ln => Fragment.line ln.content)] := by
  unfold emitPage
  rw [dictSet_append_fresh h]
  have key : ∀ (lines : List Line) (acc : List Fragment),
      lines.foldl
          (fun tc ln => dictSet tc pg.page_number
            ((dictGet? tc pg.page_number).getD [] ++ [Fragment.line ln.content]))
          (tc ++ [(pg.page_number, acc)])
        = tc ++ [(pg.page_number, acc ++ lines.map fun ln => Fragment.line ln.content)] := by
    intro lines
    induction lines with
    | nil =>
      intro acc
      simp
    | cons ln lines ih =>
      intro acc
      rw [List.foldl_cons, dictGet?_append_last h, Option.getD_some,
        dictSet_append_last h, ih (acc ++ [Fragment.line ln.content])]
      simp [List.append_assoc]
  have := key pg.lines []
  simpa using this

theorem foldl_emitPage_map (pages : List Page) :
    ∀ tc : PageText, (pages.map (·.page_number)).Nodup →
      (∀ pg ∈ pages, pg.page_number ∉ tc.map Prod.fst) →
      pages.foldl emitPage tc
        = tc ++ pages.map
            (fun pg => (pg.page_number, pg.lines.map fun ln => Fragment.line ln.content)) := by
  induction pages with
  | nil =>
    intro tc _ _
    simp
  | cons pg pages ih =>
    intro tc hnd hf
    rw [List.map_cons, List.nodup_cons] at hnd
    rw [List.foldl_cons, emitPage_fresh tc pg (hf pg (List.mem_cons_self pg pages)),
      ih _ hnd.2 ?fresh]
    · simp [List.append_assoc]
    case fresh =>
      intro pg' hpg'
      rw [List.map_append, List.mem_append]
      push_neg
      constructor
      · exact hf pg' (List.mem_cons_of_mem pg hpg')
      · simp only [List.map_cons, List.map_nil, List.mem_singleton]
        intro hcon
        exact hnd.1 (hcon ▸ List.mem_map_of_mem (·.page_number) hpg')

end InvoiceParser

namespace InvoiceParser

/-! ### Claim theorems -/

/-- C2: `process_pdf` never raises past its boundary.  When the analysis
step fails with exception text `e`, the result is exactly
`"Error processing PDF: " ++ e` for every LLM parameter, so no LLM
invocation occurs.  In general the result is either an
`"Error processing PDF: "`-prefixed string or the text of a successful
LLM response to the assembled prompt. -/
theorem process_pdf_error_boundary (a : Except String AnalysisResult) (li : LlmInit) :
    (∀ e, a = Except.error e →
      ∀ li₂ : LlmInit, process_pdf a li₂ = "Error processing PDF: " ++ e)
    ∧ ((∃ e, process_pdf a li = "Error processing PDF: " ++ e)
        ∨ ∃ result llm tables_str resp,
            a = Except.ok result ∧ li = Except.ok llm
            ∧ tablesStr (extract_tables result) = Except.ok tables_str
            ∧ llm (mkPrompt (textContentStr (extract_text result)) tables_str)
                = Except.ok resp
            ∧ process_pdf a li = resp) := by
  constructor
  · intro e he li₂
    subst he
    rfl
  · cases a with
    | error e => exact Or.inl ⟨e, rfl⟩
    | ok result =>
      cases li with
      | error e => exact Or.inl ⟨e, rfl⟩
      | ok llm =>
        rw [process_pdf_ok_eq result llm]
        cases hts : tablesStr (extract_tables result) with
        | error e => exact Or.inl ⟨e, rfl⟩
        | ok ts =>
          have hred : (match Except.ok ts with
              | Except.error e => "Error processing PDF: " ++ e
              | Except.ok ts =>
                match llm (mkPrompt (textContentStr (extract_text result)) ts) with
                | Except.error e => "Error processing PDF: " ++ e
                | Except.ok r => r)
            = (match llm (mkPrompt (textContentStr (extract_text result)) ts) with
                | Except.error e => "Error processing PDF: " ++ e
                | Except.ok r => r) := rfl
          rw [hred]
          cases hllm : llm (mkPrompt (textContentStr (extract_text result)) ts) with
          | error e => exact Or.inl ⟨e, rfl⟩
          | ok resp =>
            exact Or.inr ⟨result, llm, ts, resp, rfl, rfl, hts, hllm, rfl⟩

/-- Witness for C2: a concrete failing analysis call yields exactly the
prefixed error string, independently of the (never-invoked) LLM. -/
theorem process_pdf_error_boundary_witness :
    process_pdf (Except.error "boom") (Except.ok fun _ => Except.ok "resp")
      = "Error processing PDF: boom" :=
  (process_pdf_error_boundary (Except.error "boom")
    (Except.ok fun _ => Except.ok "resp")).1 "boom" rfl
    (Except.ok fun _ => Except.ok "resp")

/-- C3 counterexample: a 1×1 table whose only cell addresses row 1 makes
the grid builder raise an `IndexError` (modelled as `Except.error`); the
cell is neither ignored nor clamped, and `process_pdf` surfaces the
failure as an error string. -/
theorem buildGrid_out_of_range_cex :
    (extract_tables c3res).map buildGrid = [Except.error "list index out of range"]
    ∧ process_pdf (Except.ok c3res) (Except.ok fun _ => Except.ok "unused")
        = "Error processing PDF: list index out of range" := by
  constructor
  · rfl
  · rfl

/-- C3 amended: the grid builder raises exactly when some cell's indices
do not resolve as Python list indices for the `row_count × column_count`
grid (indices in `[-n, n)` resolve, negative ones wrapping from the end);
out-of-range cells are neither ignored nor clamped. -/
theorem buildGrid_error_characterization (t : TableRecord) :
    (∃ e, buildGrid t = Except.error e)
      ↔ t.cells.any (fun c => !pyInRange t.row_count t.column_count c) = true := by
  unfold buildGrid
  refine foldlM_setCell_error_iff t.cells _ ?_ ?_
  · exact List.length_replicate _ _
  · intro row hrow
    rw [List.eq_of_mem_replicate hrow]
    exact List.length_replicate _ _

/-- C4 counterexample: a table whose bounding regions name pages 3 then 2
is serialized with header `"Pages: 3, 2"` — the first-occurrence region
order, which is not ascending. -/
theorem tableHeader_unsorted_pages_cex :
    (extract_tables c4res).map (fun rec => rec.page_numbers) = [[3, 2]]
    ∧ (extract_tables c4res).map (tableHeader 0) = ["\n### Table 1\nPages: 3, 2\n\n"]
    ∧ ¬ List.Sorted (fun a b : Nat => a ≤ b) [3, 2] := by
  refine ⟨rfl, ?_, by decide⟩
  decide

/-- C4 amended: the serialized header of the table at index `i` shows the
1-based sequence number `i + 1` and the comma-joined page numbers in
order of first occurrence among the table's bounding regions
(deduplicated), not in sorted order. -/
theorem tableHeader_first_occurrence (r : AnalysisResult) (i : Nat) (t : Table)
    (h : r.tables.get? i = some t) :
    ∃ rec, (extract_tables r).get? i = some rec
      ∧ rec.page_numbers = firstDedup (t.bounding_regions.map (·.page_number))
      ∧ tableHeader i rec
          = "\n### Table " ++ toString (i + 1) ++ "\n" ++ "Pages: "
            ++ String.intercalate ", "
                ((firstDedup (t.bounding_regions.map (·.page_number))).map toString)
            ++ "\n\n" := by
  refine ⟨mkTableRecord i t, ?_, ?_, ?_⟩
  · rw [extract_tables, extract_tablesAux_get? 0 _ i, h]
    simp
  · exact tablePageNumbers_eq_firstDedup t
  · unfold tableHeader
    rw [show (mkTableRecord i t).page_numbers = tablePageNumbers t from rfl,
      tablePageNumbers_eq_firstDedup]

/-- Witness for C4 (amended): the concrete pages-[3, 2] table. -/
theorem tableHeader_first_occurrence_witness :
    ∃ rec, (extract_tables c4res).get? 0 = some rec
      ∧ rec.page_numbers
          = firstDedup ((c4res.tables.getD 0
              ⟨0, 0, [], []⟩).bounding_regions.map (·.page_number))
      ∧ tableHeader 0 rec
          = "\n### Table " ++ toString (0 + 1) ++ "\n" ++ "Pages: "
            ++ String.intercalate ", "
                ((firstDedup ((c4res.tables.getD 0
                    ⟨0, 0, [], []⟩).bounding_regions.map (·.page_number))).map toString)
            ++ "\n\n" :=
  tableHeader_first_occurrence c4res 0 (c4res.tables.getD 0 ⟨0, 0, [], []⟩) rfl

/-- C5: for a table whose cells all lie inside
`[0, row_count) × [0, column_count)`, the grid builder succeeds with a
dense `row_count × column_count` grid of strings; every position holds
the content of the last cell addressing it and the empty string when no
cell does, and serialization renders one `" | "`-joined line per row.
The specification's 2×2 example produces rows `"A | B"` and `"C | D"`. -/
theorem buildGrid_dense_grid (t : TableRecord)
    (hc : ∀ c ∈ t.cells, 0 ≤ c.row_index ∧ c.row_index < (t.row_count : Int)
        ∧ 0 ≤ c.column_index ∧ c.column_index < (t.column_count : Int)) :
    (∃ g, buildGrid t = Except.ok g
      ∧ g.length = t.row_count
      ∧ (∀ row ∈ g, row.length = t.column_count)
      ∧ (∀ i j, i < t.row_count → j < t.column_count →
          (g.getD i []).getD j "" = cellAtContent t i j)
      ∧ renderGrid g = String.join (g.map fun row => String.intercalate " | " row ++ "\n"))
    ∧ buildGrid t5rec = Except.ok [["A", "B"], ["C", "D"]]
    ∧ renderGrid [["A", "B"], ["C", "D"]] = "A | B\nC | D\n" := by
  refine ⟨?_, rfl, rfl⟩
  obtain ⟨g, hfold, hlen, hrows, hval⟩ :=
    @foldlM_setCell_ok t.row_count t.column_count t.cells
      (List.replicate t.row_count (List.replicate t.column_count ""))
      (List.length_replicate _ _)
      (fun row hrow => by
        rw [List.eq_of_mem_replicate hrow]
        exact List.length_replicate _ _)
      hc
  refine ⟨g, hfold, hlen, hrows, ?_, renderGrid_eq_join g⟩
  intro i j hi hj
  rw [hval i j hi hj]
  unfold cellAtContent
  cases lastMatch t.cells i j with
  | some c => rfl
  | none =>
    show ((List.replicate t.row_count (List.replicate t.column_count "")).getD i []).getD j ""
      = ""
    have h1 : (List.replicate t.row_count (List.replicate t.column_count "")).getD i []
        = List.replicate t.column_count "" := by
      have hmem : (List.replicate t.row_count (List.replicate t.column_count "")).getD i []
          ∈ List.replicate t.row_count (List.replicate t.column_count "") := by
        apply getD_mem
        rw [List.length_replicate]
        exact hi
      exact List.eq_of_mem_replicate hmem
    rw [h1]
    have hmem : (List.replicate t.column_count "").getD j ""
        ∈ List.replicate t.column_count "" := by
      apply getD_mem
      rw [List.length_replicate]
      exact hj
    exact List.eq_of_mem_replicate hmem

/-- Witness for C5: the 2×2 example table satisfies the in-range
hypothesis and yields the dense grid `[["A", "B"], ["C", "D"]]`. -/
theorem buildGrid_dense_grid_witness :
    buildGrid t5rec = Except.ok [["A", "B"], ["C", "D"]]
      ∧ renderGrid [["A", "B"], ["C", "D"]] = "A | B\nC | D\n" :=
  ⟨(buildGrid_dense_grid t5rec (by decide)).2.1,
   (buildGrid_dense_grid t5rec (by decide)).2.2⟩

/-- C9: an analysis result with no paragraphs, no pages and no tables
produces an empty text mapping and an empty table list, and both prompt
sections render as (successfully) empty strings — nothing raises. -/
theorem extract_on_empty_result (r : AnalysisResult)
    (h1 : r.paragraphs = []) (h2 : r.pages = []) (h3 : r.tables = []) :
    extract_text r = [] ∧ extract_tables r = []
      ∧ textContentStr (extract_text r) = ""
      ∧ tablesStr (extract_tables r) = Except.ok "" := by
  have ht : extract_text r = [] := by
    unfold extract_text paragraphPass
    rw [h1, h2]
    simp
  have htab : extract_tables r = [] := by
    unfold extract_tables
    rw [h3]
    rfl
  refine ⟨ht, htab, ?_, ?_⟩
  · rw [ht]
    rfl
  · rw [htab]
    rfl

/-- Witness for C9: the concrete empty analysis result. -/
theorem extract_on_empty_result_witness :
    extract_text exEmpty = [] ∧ extract_tables exEmpty = [] :=
  ⟨(extract_on_empty_result exEmpty rfl rfl rfl).1,
   (extract_on_empty_result exEmpty rfl rfl rfl).2.1⟩

/-- C1 counterexample: a result with one paragraph (whose bounding-region
list is empty) and one page with one line.  The paragraph is present, yet
the output is rebuilt from the page's lines — page/line data is not
ignored when at least one paragraph is present. -/
theorem extract_text_fallback_despite_paragraph_cex :
    c1res.paragraphs ≠ [] ∧ extract_text c1res = [(1, [Fragment.line "hello"])] := by
  constructor
  · decide
  · rfl

/-- C1 amended: the paragraph source is used, and page/line data ignored
entirely, exactly when some paragraph has a nonempty bounding-region
list; otherwise (no paragraphs, or only region-less paragraphs) the
mapping is rebuilt from pages/lines.  The two sources are never
combined: the output is always exactly one of the two passes. -/
theorem extract_text_source_dichotomy (r : AnalysisResult) :
    (hasRegionB r = true →
      ∀ ps : List Page, extract_text { r with pages := ps } = paragraphPass r)
    ∧ (hasRegionB r = false → extract_text r = pagePass r)
    ∧ (extract_text r = paragraphPass r ∨ extract_text r = pagePass r) := by
  refine ⟨fun h ps => extract_text_eq_paragraphPass h ps,
    fun h => extract_text_eq_pagePass h, ?_⟩
  cases h : hasRegionB r with
  | true =>
    left
    exact extract_text_eq_paragraphPass h r.pages
  | false =>
    right
    exact extract_text_eq_pagePass h

/-- Witness for C1 (amended): a paragraph with regions forces the
paragraph pass whatever the pages are. -/
theorem extract_text_source_dichotomy_witness :
    extract_text { ex7 with pages := [⟨9, [⟨"zz"⟩]⟩] } = paragraphPass ex7 :=
  (extract_text_source_dichotomy ex7).1 (by decide) [⟨9, [⟨"zz"⟩]⟩]

/-- C6: paragraphs are emitted in ascending first-span-offset order
(a span-less paragraph counting as offset 0): the sorted sequence is a
sorted permutation of the input that is stable (paragraphs of equal key
keep their original relative order), each page's fragment list follows
that sorted order, and the `[50, 10, 30]` example sorts to
`[10, 30, 50]`. -/
theorem extract_text_paragraph_order (r : AnalysisResult) (h : hasRegionB r = true) :
    List.Sorted (fun a b => paragraphKey a ≤ paragraphKey b) (sortedParagraphs r.paragraphs)
    ∧ (sortedParagraphs r.paragraphs).Perm r.paragraphs
    ∧ (∀ k, (sortedParagraphs r.paragraphs).filter (fun p => paragraphKey p == k)
          = r.paragraphs.filter (fun p => paragraphKey p == k))
    ∧ (∀ n, (dictGet? (extract_text r) n).getD []
          = (sortedParagraphs r.paragraphs).flatMap (fun p => pageFrags p n))
    ∧ (sortedParagraphs ex6.paragraphs).map paragraphKey = [10, 30, 50] :=
  ⟨sorted_sortedParagraphs _, perm_sortedParagraphs _,
    fun k => filter_key_sortedParagraphs _ k,
    fun n => extract_text_flatMap_pageFrags h n, by decide⟩

/-- Witness for C6: the `[50, 10, 30]` example, with the page-1 fragment
sequence emitted in sorted order `x10, x30, x50`. -/
theorem extract_text_paragraph_order_witness :
    (dictGet? (extract_text ex6) 1).getD []
      = (sortedParagraphs ex6.paragraphs).flatMap (fun p => pageFrags p 1)
    ∧ (dictGet? (extract_text ex6) 1).getD []
      = [Fragment.paragraph "x10" none, Fragment.paragraph "x30" none,
         Fragment.paragraph "x50" none] :=
  ⟨(extract_text_paragraph_order ex6 (by decide)).2.2.2.1 1, by decide⟩

/-- C7: a paragraph contributes a separate fragment to every page named
by its bounding regions (duplication across pages, not exclusive
assignment). -/
theorem extract_text_fragment_per_region_page (r : AnalysisResult) (p : Paragraph)
    (hp : p ∈ r.paragraphs) (n : Nat)
    (hn : n ∈ p.bounding_regions.map (·.page_number)) :
    Fragment.paragraph p.content p.role ∈ (dictGet? (extract_text r) n).getD [] := by
  have hreg : p.bounding_regions ≠ [] := by
    intro hc
    rw [hc] at hn
    cases hn
  have h : hasRegionB r = true := by
    unfold hasRegionB
    rw [List.any_eq_true]
    refine ⟨p, hp, ?_⟩
    simpa using hreg
  rw [extract_text_flatMap_pageFrags h n, List.mem_flatMap]
  refine ⟨p, ((perm_sortedParagraphs r.paragraphs).mem_iff).mpr hp, ?_⟩
  unfold pageFrags
  rw [List.mem_map]
  refine ⟨n, ?_, rfl⟩
  rw [List.mem_filter]
  exact ⟨hn, by simp⟩

/-- Witness for C7: the paragraph with regions on pages 2 and 3 appears
on both pages. -/
theorem extract_text_fragment_per_region_page_witness :
    Fragment.paragraph "shared" (some "title") ∈ (dictGet? (extract_text ex7) 2).getD []
    ∧ Fragment.paragraph "shared" (some "title") ∈ (dictGet? (extract_text ex7) 3).getD [] :=
  ⟨extract_text_fragment_per_region_page ex7
      ⟨"shared", some "title", [⟨2⟩, ⟨3⟩], [⟨0⟩]⟩ (by decide) 2 (by decide),
   extract_text_fragment_per_region_page ex7
      ⟨"shared", some "title", [⟨2⟩, ⟨3⟩], [⟨0⟩]⟩ (by decide) 3 (by decide)⟩

/-- C8: with zero paragraphs, the output has one entry per page in
document order — an entry even for a page with zero lines — holding one
line fragment per line in source order; in particular every page number
of the input is a key of the output. -/
theorem extract_text_pages_fallback (r : AnalysisResult)
    (hp : r.paragraphs = []) (hnd : (r.pages.map (·.page_number)).Nodup) :
    extract_text r
        = r.pages.map
            (fun pg => (pg.page_number, pg.lines.map fun ln => Fragment.line ln.content))
    ∧ (extract_text r).map Prod.fst = r.pages.map (·.page_number) := by
  have hno : hasRegionB r = false := by
    unfold hasRegionB
    rw [hp]
    rfl
  have h1 : extract_text r
      = r.pages.map
          (fun pg => (pg.page_number, pg.lines.map fun ln => Fragment.line ln.content)) := by
    rw [extract_text_eq_pagePass hno]
    unfold pagePass
    rw [foldl_emitPage_map r.pages [] hnd (by intro pg _; simp)]
    simp
  refine ⟨h1, ?_⟩
  rw [h1, List.map_map]
  rfl

/-- Witness for C8: two pages (numbers 2 and 5, the second line-less)
produce entries for both pages, the first holding its lines in order. -/
theorem extract_text_pages_fallback_witness :
    extract_text ex8 = [(2, [Fragment.line "a", Fragment.line "b"]), (5, [])]
    ∧ (extract_text ex8).map Prod.fst = [2, 5] :=
  ⟨(extract_text_pages_fallback ex8 rfl (by decide)).1,
   (extract_text_pages_fallback ex8 rfl (by decide)).2⟩

/-- C10: a paragraph with no bounding regions contributes nothing: the
extractor's output on any result equals its output with all region-less
paragraphs removed (they participate in the sort but emit no fragment;
in particular, if only region-less paragraphs exist, the page fallback
applies exactly as if there were no paragraphs). -/
theorem extract_text_ignores_regionless_paragraphs (r : AnalysisResult) :
    extract_text r
      = extract_text
          { r with paragraphs := r.paragraphs.filter (fun p => !p.bounding_regions.isEmpty) } := by
  have hq : hasRegionB
        { r with paragraphs := r.paragraphs.filter (fun p => !p.bounding_regions.isEmpty) }
      = hasRegionB r := by
    show (r.paragraphs.filter (fun p => !p.bounding_regions.isEmpty)).any
        (fun p => !p.bounding_regions.isEmpty)
      = r.paragraphs.any (fun p => !p.bounding_regions.isEmpty)
    induction r.paragraphs with
    | nil => rfl
    | cons p l ih =>
      rw [List.filter_cons]
      cases hp : (!p.bounding_regions.isEmpty) with
      | true =>
        simp only [if_true, List.any_cons, hp, Bool.true_or]
      | false =>
        simp only [Bool.false_eq_true, if_false, List.any_cons, hp, Bool.false_or, ih]
  cases h : hasRegionB r with
  | true =>
    have h' : hasRegionB
        { r with paragraphs := r.paragraphs.filter (fun p => !p.bounding_regions.isEmpty) }
        = true := by rw [hq, h]
    rw [show extract_text r = paragraphPass r from extract_text_eq_paragraphPass h r.pages,
      show extract_text
          { r with paragraphs := r.paragraphs.filter (fun p => !p.bounding_regions.isEmpty) }
        = paragraphPass
          { r with paragraphs := r.paragraphs.filter (fun p => !p.bounding_regions.isEmpty) }
        from extract_text_eq_paragraphPass h' r.pages]
    have hex : ∃ p ∈ r.paragraphs, (!p.bounding_regions.isEmpty) = true := by
      unfold hasRegionB at h
      exact List.any_eq_true.mp h
    obtain ⟨p, hp, hpq⟩ := hex
    have hne : ¬(r.paragraphs.isEmpty = true) := by
      simp only [List.isEmpty_iff]
      intro hnil
      rw [hnil] at hp
      cases hp
    have hne' : ¬((r.paragraphs.filter (fun p => !p.bounding_regions.isEmpty)).isEmpty
        = true) := by
      simp only [List.isEmpty_iff]
      intro hnil
      have : p ∈ r.paragraphs.filter (fun p => !p.bounding_regions.isEmpty) :=
        List.mem_filter.mpr ⟨hp, hpq⟩
      rw [hnil] at this
      cases this
    show (if ¬(r.paragraphs.isEmpty = true) then
        (sortedParagraphs r.paragraphs).foldl emitParagraph [] else [])
      = (if ¬((r.paragraphs.filter (fun p => !p.bounding_regions.isEmpty)).isEmpty = true)
        then (sortedParagraphs
          (r.paragraphs.filter (fun p => !p.bounding_regions.isEmpty))).foldl
            emitParagraph []
        else [])
    rw [if_pos hne, if_pos hne', sortedParagraphs_filter_comm,
      ← foldl_emitParagraph_filter]
  | false =>
    have h' : hasRegionB
        { r with paragraphs := r.paragraphs.filter (fun p => !p.bounding_regions.isEmpty) }
        = false := by rw [hq, h]
    rw [extract_text_eq_pagePass h, extract_text_eq_pagePass h']
    rfl

end InvoiceParser
